import Mathlib

/-
Verification of the entry-resolution engine of Tmux-Sessionizer
(src/cmd/root.go). The Go code is shallowly embedded: filesystem access,
tmux queries and path resolution are abstracted as fields of a `World`
record, while all the logic of `buildDirectoryEntries`, `processScanDir`,
`addPath`, `createDisplayName`, `shouldSkipEntry`, the presentation sort in
`rootCmd.RunE`, and the post-picker selection logic are translated
function-by-function. Go `filepath.Base`, `filepath.Dir` (with
`path.Clean`), `strings.HasPrefix`, `strings.CutPrefix` and the
byte-lexicographic `strings.Compare` are implemented over `List Char` so
that everything reduces inside the kernel.
-/

namespace Tms

/-! ### Go string and path primitives (unix `path/filepath` semantics) -/

/-- Byte-lexicographic order on strings, as `strings.Compare(a, b) <= 0` in Go.
On UTF-8 data, Go's byte order agrees with the codepoint order used here. -/
def lexLe : List Char → List Char → Bool
  | [], _ => true
  | _ :: _, [] => false
  | a :: as, b :: bs => if a < b then true else if b < a then false else lexLe as bs

/-- Initial-segment test on character lists. -/
def isPfxOf : List Char → List Char → Bool
  | [], _ => true
  | _ :: _, [] => false
  | a :: as, b :: bs => a == b && isPfxOf as bs

/-- Go `strings.HasPrefix s pre`. -/
def hasPfx (s pre : String) : Bool := isPfxOf pre.toList s.toList

/-- Go `strings.CutPrefix s pre` (first component only; the Go code at
src/cmd/root.go:119 discards the boolean). -/
def cutPfx (s pre : String) : String :=
  if hasPfx s pre then String.mk (s.toList.drop pre.toList.length) else s

/-- Strip trailing path separators, as the loop in Go `filepath.Base`. -/
def dropTrailSlash (s : String) : String :=
  String.mk ((s.toList.reverse.dropWhile (fun c => c == '/')).reverse)

/-- Go `filepath.Base` for unix paths. -/
def goBase (path : String) : String :=
  if path = "" then "."
  else
    let cs := (dropTrailSlash path).toList
    if cs = [] then "/"
    else String.mk ((cs.reverse.takeWhile (fun c => c != '/')).reverse)

/-- Split a character list on every separator, keeping empty segments,
as iterating the components of a path does in Go `path.Clean`. -/
def splitSlashAux : List Char → List Char → List String
  | [], acc => [String.mk acc.reverse]
  | c :: rest, acc =>
    if c == '/' then String.mk acc.reverse :: splitSlashAux rest []
    else splitSlashAux rest (c :: acc)

/-- Segment stack of Go `path.Clean`: drop empty and dot segments, let a
dotdot segment pop a previous real segment, keep it when there is nothing
to pop in a relative path, drop it at the root of a rooted path. -/
def cleanSegs (rooted : Bool) : List String → List String → List String
  | [], stack => stack.reverse
  | s :: rest, stack =>
    if s = "" || s = "." then cleanSegs rooted rest stack
    else if s = ".." then
      match stack with
      | [] => if rooted then cleanSegs rooted rest [] else cleanSegs rooted rest [".."]
      | t :: ts =>
        if t = ".." then cleanSegs rooted rest (".." :: t :: ts)
        else cleanSegs rooted rest ts
    else cleanSegs rooted rest (s :: stack)

/-- Join segments with separators (inverse of splitting on a slash). -/
def joinSlash : List String → String
  | [] => ""
  | [s] => s
  | s :: rest => s ++ "/" ++ joinSlash rest

/-- Go `path.Clean` (equals `filepath.Clean` on unix). -/
def goClean (path : String) : String :=
  if path = "" then "."
  else
    let rooted := hasPfx path "/"
    let segs := splitSlashAux path.toList []
    let out := (if rooted then "/" else "") ++ joinSlash (cleanSegs rooted segs [])
    if out = "" then "." else out

/-- Go `filepath.Dir` for unix paths: everything up to and including the
last separator, cleaned; a path with no separator has directory dot. -/
def goDir (path : String) : String :=
  goClean (String.mk ((path.toList.reverse.dropWhile (fun c => c != '/')).reverse))

/-! ### Data model (internal/models, restricted to the fields this file uses) -/

/-- One configured scan source: Go `models.ScanDir` {Path, Alias, Depth}. -/
structure ScanDir where
  Path : String
  Alias : String
  Depth : Int
deriving DecidableEq

/-- Modelled from the spec: `internal/models.ScanDir.GetDepth` is not under
src/ (only its caller at src/cmd/root.go:298 is). The spec fixes the
precedence: explicit per-invocation override, then per-source configured
depth, then global default depth, where zero stands for unset. -/
def ScanDir.GetDepth (s : ScanDir) (flagDepth defaultDepth : Int) : Int :=
  if flagDepth ≠ 0 then flagDepth
  else if s.Depth ≠ 0 then s.Depth
  else defaultDepth

/-- The slice of Go `models.Config` that the engine reads. -/
structure Config where
  ScanDirs : List ScanDir
  EntryDirs : List String
  IgnoreDirs : List String
  DefaultDepth : Int
  TmuxSessionPfx : String
deriving DecidableEq

/-- Go `models.PathInfo` {Path, Prefix}; the second field is named `pfx`
here because of lexical constraints of this development. -/
structure PathInfo where
  Path : String
  pfx : String
deriving DecidableEq

/-- Go `models.Session` restricted to the two fields the selection logic
fills from entry data (the layout is copied verbatim from configuration). -/
structure Session where
  Name : String
  Path : String
deriving DecidableEq

/-- The world one invocation runs against: the configuration plus the
external collaborators of the engine — `utility.ResolvePath`,
`utility.GetSubDirs`, `tmux.GetTmuxSessionSet` (a set given with the
iteration order the Go map range produces) and
`tmux.GetCurrentTmuxSession`. -/
structure World where
  cfg : Config
  resolvePath : String → Option String
  getSubDirs : Int → String → Option (List String)
  existingSessions : List String
  currentSession : String

/-! ### The entry-resolution engine (src/cmd/root.go:211-351) -/

/-- The ignore set built at src/cmd/root.go:218-224: every configured
ignore path is resolved and resolution failures are dropped. -/
def ignoreSetOf (w : World) : List String :=
  w.cfg.IgnoreDirs.filterMap w.resolvePath

/-- The mutable state of the collection phase: the ordered candidate list
`allPaths` and the base-name multimap `pathsByBaseName`. -/
structure CollectState where
  allPaths : List PathInfo
  pathsByBaseName : String → List PathInfo

def initState : CollectState := ⟨[], fun _ => []⟩

/-- The `addPath` closure at src/cmd/root.go:231-253: resolve, drop
ignored paths, drop paths whose base name equals the current session, and
record the survivor in both the list and the multimap. The Go closure
returns an error that is always nil, so it is embedded as a pure state
transformer. -/
def addPath (w : World) (ignoreSet : List String) (st : CollectState)
    (path pfx : String) : CollectState :=
  match w.resolvePath path with
  | none => st
  | some resolved =>
    if ignoreSet.contains resolved then st
    else
      let name := goBase resolved
      if name = w.currentSession then st
      else
        let info : PathInfo := ⟨resolved, pfx⟩
        { allPaths := st.allPaths ++ [info]
          pathsByBaseName := fun n =>
            if n = name then st.pathsByBaseName n ++ [info] else st.pathsByBaseName n }

/-- `processScanDir` at src/cmd/root.go:296-323: compute the effective
depth, resolve the root (skipping the whole source on failure), scan it
(skipping the source on failure), and admit every subdirectory. -/
def processScanDir (w : World) (scanDir : ScanDir) (flagDepth : Int) (pfx : String)
    (ignoreSet : List String) (st : CollectState) : CollectState :=
  match w.resolvePath scanDir.Path with
  | none => st
  | some resolved =>
    match w.getSubDirs (scanDir.GetDepth flagDepth w.cfg.DefaultDepth) resolved with
    | none => st
    | some subDirs => subDirs.foldl (fun s d => addPath w ignoreSet s d pfx) st

/-- The collection phase of `buildDirectoryEntries`
(src/cmd/root.go:226-267): every scan source with its alias as prefix,
then every explicit entry with an empty prefix. -/
def collectPaths (w : World) (flagDepth : Int) : CollectState :=
  w.cfg.EntryDirs.foldl (fun s e => addPath w (ignoreSetOf w) s e "")
    (w.cfg.ScanDirs.foldl
      (fun s sd => processScanDir w sd flagDepth sd.Alias (ignoreSetOf w) s) initState)

/-- `createDisplayName` at src/cmd/root.go:327-345. -/
def createDisplayName (info : PathInfo) (pathsByBaseName : String → List PathInfo) :
    String :=
  let name := goBase info.Path
  let pathsWithSameName := pathsByBaseName name
  let displayName :=
    if pathsWithSameName.length > 1 then
      name ++ " (" ++ goBase (goDir info.Path) ++ ")"
    else name
  if info.pfx ≠ "" then info.pfx ++ "/" ++ displayName else displayName

/-- `shouldSkipEntry` at src/cmd/root.go:349-351. -/
def shouldSkipEntry (displayName currentSession : String)
    (existingSessions : List String) : Bool :=
  displayName == currentSession || existingSessions.contains displayName

/-- The directory half of the insertion sequence performed on the
`entries` map (src/cmd/root.go:270-279), in candidate order. -/
def dirInsertions (w : World) (flagDepth : Int) : List (String × String) :=
  (collectPaths w flagDepth).allPaths.filterMap fun info =>
    let displayName := createDisplayName info (collectPaths w flagDepth).pathsByBaseName
    if shouldSkipEntry displayName w.currentSession w.existingSessions then none
    else some (displayName, info.Path)

/-- The live-session half of the insertion sequence
(src/cmd/root.go:282-289), in the iteration order carried by the world. -/
def sessionInsertions (w : World) : List (String × String) :=
  (w.existingSessions.filter (fun s => !(s == w.currentSession))).map
    (fun s => (w.cfg.TmuxSessionPfx ++ s, s))

/-- Every insertion `entries[k] = v` performed by `buildDirectoryEntries`,
in execution order. -/
def entryInsertions (w : World) (flagDepth : Int) : List (String × String) :=
  dirInsertions w flagDepth ++ sessionInsertions w

/-- Lookup in a Go map built by a sequence of insertions: the last
insertion of a key wins. -/
def lookupEntries (es : List (String × String)) (k : String) : Option String :=
  (es.reverse.find? (fun p => p.1 == k)).map Prod.snd

/-- `buildDirectoryEntries` (src/cmd/root.go:211-292) as the resulting
map, read through lookup. -/
def buildDirectoryEntries (w : World) (flagDepth : Int) : String → Option String :=
  lookupEntries (entryInsertions w flagDepth)

/-- The keys of `buildDirectoryEntries` in insertion order, with
repetitions kept: the claim that no insertion overwrites another is
exactly that this list has no duplicate. -/
def entryKeys (w : World) (flagDepth : Int) : List String :=
  (entryInsertions w flagDepth).map Prod.fst

/-! ### Presentation sort and selection (rootCmd.RunE, src/cmd/root.go:83-133) -/

/-- The comparator of the `slices.SortFunc` call at src/cmd/root.go:94-104,
read as a boolean order: names carrying the live-session prefix first,
byte-lexicographic within a group. -/
def namesLe (pfx a b : String) : Bool :=
  let isTmuxA := hasPfx a pfx
  let isTmuxB := hasPfx b pfx
  if isTmuxA && !isTmuxB then true
  else if !isTmuxA && isTmuxB then false
  else lexLe a.toList b.toList

/-- The sort of the name list handed to the picker. `slices.SortFunc` is
embedded as insertion sort: on the duplicate-free key list of a map, any
sort by this total order yields the same sequence. -/
def sortNames (pfx : String) (l : List String) : List String :=
  List.insertionSort (fun a b => namesLe pfx a b = true) l

/-- The logic after a choice exists (src/cmd/root.go:119-133): strip the
live-session prefix, look the choice up, fail when the lookup misses and
the choice came from the picker rather than from a positional argument,
and otherwise build the session from the name and the looked-up path
(which defaults to the empty string on a miss). -/
def selectSession (entries : List (String × String)) (tmuxPfx : String)
    (arg : Option String) (picked : String) : Except String Session :=
  let choiceStr := match arg with | some a => a | none => picked
  let sessionName := cutPfx choiceStr tmuxPfx
  let selectedPath := lookupEntries entries choiceStr
  if selectedPath.isNone && arg.isNone then
    Except.error ("The name must match an existing directory entry: " ++ choiceStr)
  else
    Except.ok ⟨sessionName, selectedPath.getD ""⟩

/-! ### Modelled subtree scanner (for the depth claims only) -/

/-- A directory tree, for the spec-modelled scanner. -/
inductive FsTree where
  | node (name : String) (children : List FsTree)

def FsTree.name : FsTree → String
  | .node n _ => n

def FsTree.children : FsTree → List FsTree
  | .node _ cs => cs

/-- Modelled from the spec: `internal/utility.GetSubDirs` is not under src/
(only its caller at src/cmd/root.go:308 is). Per the spec, an effective
depth of zero means no recursion — only the root's immediate content —
and each further level descends one level of subdirectories. -/
def subDirsModel (base : String) : Nat → FsTree → List String
  | 0, t => t.children.map (fun c => base ++ "/" ++ c.name)
  | n + 1, t =>
    t.children.map (fun c => base ++ "/" ++ c.name) ++
      t.children.flatMap (fun c => subDirsModel (base ++ "/" ++ c.name) n c)

/-- Modelled from the spec: the scanner at an integer effective depth,
where any non-positive depth behaves as zero (no recursion). -/
def getSubDirsModel (depth : Int) (base : String) (t : FsTree) : List String :=
  subDirsModel base depth.toNat t

/-! ### Concrete worlds used by counterexamples and witnesses -/

/-- A world with two explicit entries whose base names and parent base
names coincide: `/a/x/p` and `/b/x/p`. -/
def cw1 : World :=
  { cfg := { ScanDirs := [], EntryDirs := ["/a/x/p", "/b/x/p"], IgnoreDirs := [],
             DefaultDepth := 3, TmuxSessionPfx := "TMUX/" }
    resolvePath := fun p => some p
    getSubDirs := fun _ _ => none
    existingSessions := []
    currentSession := "" }

/-- A world with two explicit entries of equal base name and equal parent
base name under distinct grandparents: `/a/y/q` and `/b/y/q`. -/
def cw2 : World :=
  { cfg := { ScanDirs := [], EntryDirs := ["/a/y/q", "/b/y/q"], IgnoreDirs := [],
             DefaultDepth := 3, TmuxSessionPfx := "TMUX/" }
    resolvePath := fun p => some p
    getSubDirs := fun _ _ => none
    existingSessions := []
    currentSession := "" }

/-- A world whose live-session iteration yields a prefixed key equal to
the current session's name. -/
def cw3 : World :=
  { cfg := { ScanDirs := [], EntryDirs := [], IgnoreDirs := [],
             DefaultDepth := 3, TmuxSessionPfx := "TMUX/" }
    resolvePath := fun p => some p
    getSubDirs := fun _ _ => none
    existingSessions := ["foo", "TMUX/foo"]
    currentSession := "TMUX/foo" }

/-- A world whose ignore set holds `/x`, which is also an explicit entry
and the name of a live session. -/
def cw4 : World :=
  { cfg := { ScanDirs := [], EntryDirs := ["/x"], IgnoreDirs := ["/x"],
             DefaultDepth := 3, TmuxSessionPfx := "TMUX/" }
    resolvePath := fun p => some p
    getSubDirs := fun _ _ => none
    existingSessions := ["/x"]
    currentSession := "" }

/-- A world with two explicit entries of distinct base names, two live
sessions, and a current session. -/
def cw5 : World :=
  { cfg := { ScanDirs := [], EntryDirs := ["/a/p", "/a/q"], IgnoreDirs := [],
             DefaultDepth := 3, TmuxSessionPfx := "TMUX/" }
    resolvePath := fun p => some p
    getSubDirs := fun _ _ => none
    existingSessions := ["s1", "s2"]
    currentSession := "s1" }

/-- A world with two explicit entries sharing a base name under parents of
distinct base names: `/a/x/p` and `/b/y/p`. -/
def cw6 : World :=
  { cfg := { ScanDirs := [], EntryDirs := ["/a/x/p", "/b/y/p"], IgnoreDirs := [],
             DefaultDepth := 3, TmuxSessionPfx := "TMUX/" }
    resolvePath := fun p => some p
    getSubDirs := fun _ _ => none
    existingSessions := []
    currentSession := "" }

/-- A world with an ignored explicit entry `/x` beside a surviving one,
and a live session whose name differs from the ignored path. -/
def cw7 : World :=
  { cfg := { ScanDirs := [], EntryDirs := ["/x", "/a/p"], IgnoreDirs := ["/x"],
             DefaultDepth := 3, TmuxSessionPfx := "TMUX/" }
    resolvePath := fun p => some p
    getSubDirs := fun _ _ => none
    existingSessions := ["s2"]
    currentSession := "" }

/-- A world whose path resolver fails on `/dead` and whose scanner knows
the root `/root1`; used with scan sources. -/
def cw8 : World :=
  { cfg := { ScanDirs := [ScanDir.mk "/root1" "" 0], EntryDirs := ["/a/p"], IgnoreDirs := [],
             DefaultDepth := 3, TmuxSessionPfx := "TMUX/" }
    resolvePath := fun p => if p = "/dead" then none else some p
    getSubDirs := fun _ r => if r = "/root1" then some ["/root1/s"] else none
    existingSessions := ["s2"]
    currentSession := "" }

/-- The failing scan source of the error-tolerance scenario. -/
def badScanDir : ScanDir := ScanDir.mk "/dead" "" 0

/-- A world with one aliased scan source whose scan yields two candidates
sharing the base name `p` under parents of distinct base names; both
candidates carry the alias `A` as prefix. -/
def cw9 : World :=
  { cfg := { ScanDirs := [ScanDir.mk "/r" "A" 0], EntryDirs := [], IgnoreDirs := [],
             DefaultDepth := 0, TmuxSessionPfx := "TMUX/" }
    resolvePath := fun p => some p
    getSubDirs := fun _ r => if r = "/r" then some ["/a/x/p", "/b/y/p"] else none
    existingSessions := []
    currentSession := "" }

/-! ### String lemmas -/

theorem strAppend_left_cancel {a x y : String} (h : a ++ x = a ++ y) : x = y := by
  apply String.ext
  have hd : a.data ++ x.data = a.data ++ y.data := by
    rw [← String.data_append, ← String.data_append, h]
  exact List.append_cancel_left hd

theorem strAppend_right_cancel {a x y : String} (h : x ++ a = y ++ a) : x = y := by
  apply String.ext
  have hd : x.data ++ a.data = y.data ++ a.data := by
    rw [← String.data_append, ← String.data_append, h]
  exact List.append_cancel_right hd

theorem lexLe_total (a b : List Char) : lexLe a b = true ∨ lexLe b a = true := by
  induction a generalizing b with
  | nil => left; rfl
  | cons x xs ih =>
    cases b with
    | nil => right; rfl
    | cons y ys =>
      rcases lt_trichotomy x y with h | h | h
      · left; simp [lexLe, h]
      · subst h
        rcases ih ys with h2 | h2 <;> [left; right] <;> simp [lexLe, lt_irrefl, h2]
      · right; simp [lexLe, h]

theorem lexLe_trans {a b c : List Char} (h1 : lexLe a b = true) (h2 : lexLe b c = true) :
    lexLe a c = true := by
  induction a generalizing b c with
  | nil => rfl
  | cons x xs ih =>
    cases b with
    | nil => simp [lexLe] at h1
    | cons y ys =>
      cases c with
      | nil => simp [lexLe] at h2
      | cons z zs =>
        simp only [lexLe] at h1 h2 ⊢
        by_cases hxy : x < y
        · by_cases hyz : y < z
          · simp [lt_trans hxy hyz]
          · by_cases hzy : z < y
            · simp [hyz, hzy] at h2
            · have hyzeq : y = z := le_antisymm (not_lt.mp hzy) (not_lt.mp hyz)
              simp [hyzeq ▸ hxy]
        · by_cases hyx : y < x
          · simp [hxy, hyx] at h1
          · have hxyeq : x = y := le_antisymm (not_lt.mp hyx) (not_lt.mp hxy)
            subst hxyeq
            by_cases hyz : x < z
            · simp [hyz]
            · by_cases hzy : z < x
              · simp [hyz, hzy] at h2
              · simp [hxy, hyz, hzy] at h1 h2 ⊢
                exact ih h1 h2

theorem namesLe_total (pfx : String) (a b : String) :
    namesLe pfx a b = true ∨ namesLe pfx b a = true := by
  simp only [namesLe]
  cases ha : hasPfx a pfx <;> cases hb : hasPfx b pfx <;> simp
  · exact lexLe_total a.toList b.toList
  · exact lexLe_total a.toList b.toList

theorem namesLe_trans (pfx : String) {a b c : String} (h1 : namesLe pfx a b = true)
    (h2 : namesLe pfx b c = true) : namesLe pfx a c = true := by
  simp only [namesLe] at h1 h2 ⊢
  cases ha : hasPfx a pfx <;> cases hb : hasPfx b pfx <;> cases hc : hasPfx c pfx <;>
    simp [ha, hb, hc] at h1 h2 ⊢ <;> exact lexLe_trans h1 h2

/-- Reading off what a true comparator value means: either the first name
carries the prefix and the second does not, or both sides are in the same
group and ordered lexicographically. -/
theorem namesLe_cases (pfx a b : String) (h : namesLe pfx a b = true) :
    (hasPfx a pfx = true ∧ hasPfx b pfx = false) ∨
      (hasPfx a pfx = hasPfx b pfx ∧ lexLe a.toList b.toList = true) := by
  simp only [namesLe] at h
  cases ha : hasPfx a pfx <;> cases hb : hasPfx b pfx <;> simp [ha, hb] at h ⊢ <;>
    try exact h

/-! ### Generic list helpers -/

theorem foldl_preserve {α : Type} {σ : Type} (P : σ → Prop) (f : σ → α → σ)
    (hf : ∀ s a, P s → P (f s a)) :
    ∀ (l : List α) (s : σ), P s → P (l.foldl f s)
  | [], _, hs => hs
  | a :: l, s, hs => foldl_preserve P f hf l (f s a) (hf s a hs)

theorem one_lt_length_of_two_mem {α : Type} {l : List α} {a b : α} (h1 : a ∈ l)
    (h2 : b ∈ l) (hne : a ≠ b) : 1 < l.length := by
  induction l with
  | nil => cases h1
  | cons x xs ih =>
    simp only [List.length_cons]
    rcases List.mem_cons.mp h1 with rfl | h1x
    · rcases List.mem_cons.mp h2 with rfl | h2x
      · exact absurd rfl hne
      · have : 0 < xs.length := List.length_pos.mpr (List.ne_nil_of_mem h2x)
        omega
    · have : 0 < xs.length := List.length_pos.mpr (List.ne_nil_of_mem h1x)
      omega

theorem lookupEntries_eq_none {es : List (String × String)} {k : String}
    (h : k ∉ es.map Prod.fst) : lookupEntries es k = none := by
  unfold lookupEntries
  have hf : es.reverse.find? (fun p => p.1 == k) = none := by
    refine List.find?_eq_none.mpr (fun x hx => ?_)
    have hxk : x.1 ≠ k := by
      intro hxe
      exact h (hxe ▸ List.mem_map_of_mem Prod.fst (List.mem_reverse.mp hx))
    simpa using hxk
  rw [hf]
  rfl

/-! ### Invariants of the collection phase -/

/-- The base-name index of a collection state equals the filter of the
candidate list by base name; `addPath` appends to both in lockstep. -/
def indexMatches (st : CollectState) : Prop :=
  ∀ n, st.pathsByBaseName n = st.allPaths.filter (fun i => goBase i.Path == n)

/-- No recorded candidate has a path in the given ignore set. -/
def noneIgnored (ign : List String) (st : CollectState) : Prop :=
  ∀ info ∈ st.allPaths, info.Path ∉ ign

theorem indexMatches_init : indexMatches initState := fun _ => rfl

theorem indexMatches_addPath (w : World) (ign : List String) (st : CollectState)
    (p pfx : String) (h : indexMatches st) : indexMatches (addPath w ign st p pfx) := by
  unfold addPath
  split
  next => exact h
  next r heq =>
    by_cases hig : ign.contains r = true
    · simp only [if_pos hig]; exact h
    · by_cases hcur : goBase r = w.currentSession
      · simp only [if_neg hig, if_pos hcur]; exact h
      · intro n
        have hmain := h n
        simp only [if_neg hig, if_neg hcur]
        by_cases hn : n = goBase r
        · subst hn
          simp [hmain, List.filter_append]
        · simp [hn, hmain, List.filter_append, Ne.symm hn]

theorem indexMatches_processScanDir (w : World) (sd : ScanDir) (fd : Int) (pfx : String)
    (ign : List String) (st : CollectState) (h : indexMatches st) :
    indexMatches (processScanDir w sd fd pfx ign st) := by
  unfold processScanDir
  split
  next => exact h
  next r heq =>
    split
    next => exact h
    next subs heq2 =>
      exact foldl_preserve indexMatches _
        (fun s d hP => indexMatches_addPath w ign s d pfx hP) subs st h

theorem indexMatches_collectPaths (w : World) (fd : Int) :
    indexMatches (collectPaths w fd) := by
  unfold collectPaths
  refine foldl_preserve indexMatches _
    (fun s e hP => indexMatches_addPath w (ignoreSetOf w) s e "" hP) _ _ ?_
  refine foldl_preserve indexMatches _
    (fun s sd hP => indexMatches_processScanDir w sd fd sd.Alias (ignoreSetOf w) s hP) _ _
    indexMatches_init

theorem noneIgnored_init (ign : List String) : noneIgnored ign initState :=
  fun _ hmem => by cases hmem

theorem noneIgnored_addPath (w : World) (ign : List String) (st : CollectState)
    (p pfx : String) (h : noneIgnored ign st) : noneIgnored ign (addPath w ign st p pfx) := by
  unfold addPath
  split
  next => exact h
  next r heq =>
    by_cases hig : ign.contains r = true
    · simp only [if_pos hig]; exact h
    · by_cases hcur : goBase r = w.currentSession
      · simp only [if_neg hig, if_pos hcur]; exact h
      · intro info hmem
        simp only [if_neg hig, if_neg hcur, List.mem_append, List.mem_singleton] at hmem
        rcases hmem with hold | rfl
        · exact h info hold
        · simpa using hig

theorem noneIgnored_processScanDir (w : World) (sd : ScanDir) (fd : Int) (pfx : String)
    (ign : List String) (st : CollectState) (h : noneIgnored ign st) :
    noneIgnored ign (processScanDir w sd fd pfx ign st) := by
  unfold processScanDir
  split
  next => exact h
  next r heq =>
    split
    next => exact h
    next subs heq2 =>
      exact foldl_preserve (noneIgnored ign) _
        (fun s d hP => noneIgnored_addPath w ign s d pfx hP) subs st h

theorem noneIgnored_collectPaths (w : World) (fd : Int) :
    noneIgnored (ignoreSetOf w) (collectPaths w fd) := by
  unfold collectPaths
  refine foldl_preserve (noneIgnored (ignoreSetOf w)) _
    (fun s e hP => noneIgnored_addPath w (ignoreSetOf w) s e "" hP) _ _ ?_
  refine foldl_preserve (noneIgnored (ignoreSetOf w)) _
    (fun s sd hP => noneIgnored_processScanDir w sd fd sd.Alias (ignoreSetOf w) s hP) _ _
    (noneIgnored_init _)

/-- Every key the directory half inserts passed the skip filter. -/
theorem dirKeys_not_skipped (w : World) (fd : Int) :
    ∀ k ∈ (dirInsertions w fd).map Prod.fst,
      shouldSkipEntry k w.currentSession w.existingSessions = false := by
  intro k hk
  rcases List.mem_map.mp hk with ⟨⟨k0, v⟩, hmem, hfst⟩
  rcases List.mem_filterMap.mp hmem with ⟨info, _, heq⟩
  dsimp only at heq
  by_cases hskip :
      shouldSkipEntry (createDisplayName info (collectPaths w fd).pathsByBaseName)
        w.currentSession w.existingSessions = true
  · simp [hskip] at heq
  · rw [if_neg hskip] at heq
    rcases Option.some.inj heq with h2
    have hk0 : k0 = createDisplayName info (collectPaths w fd).pathsByBaseName :=
      (congrArg Prod.fst h2).symm
    subst hfst
    rw [hk0]
    exact eq_false_of_ne_true hskip

/-! ### Claim theorems: uniqueness, disambiguation, filtering -/

/-- Claim C1 is refuted: in the world `cw1` the explicit entries `/a/x/p`
and `/b/x/p` both receive the directory-derived key `p (x)`, so the
insertion sequence repeats a key and the second insertion overwrites the
first, leaving `/a/x/p` unreachable. -/
theorem c1_counterexample :
    entryInsertions cw1 0 = [("p (x)", "/a/x/p"), ("p (x)", "/b/x/p")] ∧
    ¬ (entryKeys cw1 0).Nodup ∧
    buildDirectoryEntries cw1 0 "p (x)" = some "/b/x/p" := by decide

/-- Claim C1 (amended): live-session keys are pairwise distinct on their
own; and whenever the surviving directory-derived display names are
pairwise distinct and none of them equals a prefixed live-session key, the
whole insertion sequence has pairwise distinct keys, so no entry insertion
overwrites another. -/
theorem c1_no_overwrite_amended (w : World) (fd : Int)
    (h1 : ((dirInsertions w fd).map Prod.fst).Nodup)
    (h2 : ∀ k ∈ (dirInsertions w fd).map Prod.fst, ∀ s ∈ w.existingSessions,
      k ≠ w.cfg.TmuxSessionPfx ++ s)
    (h3 : w.existingSessions.Nodup) :
    (entryKeys w fd).Nodup := by
  unfold entryKeys entryInsertions
  rw [List.map_append, List.nodup_append]
  refine ⟨h1, ?_, ?_⟩
  · unfold sessionInsertions
    rw [List.map_map]
    exact (h3.filter _).map (fun x y hxy => strAppend_left_cancel hxy)
  · intro k hk1 hk2
    unfold sessionInsertions at hk2
    rw [List.map_map] at hk2
    rcases List.mem_map.mp hk2 with ⟨s, hs, hks⟩
    exact h2 k hk1 s (List.mem_of_mem_filter hs) hks.symm

/-- Witness for claim C1 (amended) at a concrete world with two distinct
directory names, two live sessions and a current session. -/
theorem c1_witness : (entryKeys cw5 0).Nodup :=
  c1_no_overwrite_amended cw5 0 (by decide) (by decide) (by decide)

/-- Claim C2 is refuted: in the world `cw2` the candidates `/a/y/q` and
`/b/y/q` share the base name `q`, and both disambiguated names equal
`q (y)` because the parent directories also share their base name, so the
parent-qualified names are not mutually unique. -/
theorem c2_counterexample :
    (collectPaths cw2 0).allPaths = [⟨"/a/y/q", ""⟩, ⟨"/b/y/q", ""⟩] ∧
    createDisplayName ⟨"/a/y/q", ""⟩ (collectPaths cw2 0).pathsByBaseName = "q (y)" ∧
    createDisplayName ⟨"/b/y/q", ""⟩ (collectPaths cw2 0).pathsByBaseName = "q (y)" := by
  decide

/-- Claim C2 (amended): any candidate that shares its base name with
another recorded candidate — whatever prefixes either carries — has the
disambiguated un-prefixed display name `base (parentDirName)`; its final
display name is that un-prefixed name, wrapped as `prefix/resolvedName`
exactly when its prefix is non-empty; and two such un-prefixed names
coincide exactly when the parent base names coincide, so they are
mutually unique precisely when the parent base names are pairwise
distinct. -/
theorem c2_disambiguation_amended (w : World) (fd : Int) (i1 i2 : PathInfo)
    (h1 : i1 ∈ (collectPaths w fd).allPaths) (h2 : i2 ∈ (collectPaths w fd).allPaths)
    (hne : i1 ≠ i2) (hbase : goBase i1.Path = goBase i2.Path) :
    createDisplayName ⟨i1.Path, ""⟩ (collectPaths w fd).pathsByBaseName
        = goBase i1.Path ++ " (" ++ goBase (goDir i1.Path) ++ ")" ∧
      createDisplayName i1 (collectPaths w fd).pathsByBaseName
        = (if i1.pfx = ""
           then createDisplayName ⟨i1.Path, ""⟩ (collectPaths w fd).pathsByBaseName
           else i1.pfx ++ "/"
             ++ createDisplayName ⟨i1.Path, ""⟩ (collectPaths w fd).pathsByBaseName) ∧
      (createDisplayName ⟨i1.Path, ""⟩ (collectPaths w fd).pathsByBaseName
          = createDisplayName ⟨i2.Path, ""⟩ (collectPaths w fd).pathsByBaseName ↔
        goBase (goDir i1.Path) = goBase (goDir i2.Path)) := by
  have him := indexMatches_collectPaths w fd
  have hlen1 : 1 < ((collectPaths w fd).pathsByBaseName (goBase i1.Path)).length := by
    rw [him]
    refine one_lt_length_of_two_mem ?_ ?_ hne
    · exact List.mem_filter.mpr ⟨h1, by simp⟩
    · exact List.mem_filter.mpr ⟨h2, by simp [hbase]⟩
  have hlen2 : 1 < ((collectPaths w fd).pathsByBaseName (goBase i2.Path)).length := by
    rw [← hbase]; exact hlen1
  have hd1 : createDisplayName ⟨i1.Path, ""⟩ (collectPaths w fd).pathsByBaseName
      = goBase i1.Path ++ " (" ++ goBase (goDir i1.Path) ++ ")" := by
    simp [createDisplayName, hlen1]
  have hd2 : createDisplayName ⟨i2.Path, ""⟩ (collectPaths w fd).pathsByBaseName
      = goBase i2.Path ++ " (" ++ goBase (goDir i2.Path) ++ ")" := by
    simp [createDisplayName, hlen2]
  have hwrap : createDisplayName i1 (collectPaths w fd).pathsByBaseName
      = (if i1.pfx = ""
         then createDisplayName ⟨i1.Path, ""⟩ (collectPaths w fd).pathsByBaseName
         else i1.pfx ++ "/"
           ++ createDisplayName ⟨i1.Path, ""⟩ (collectPaths w fd).pathsByBaseName) := by
    by_cases hp : i1.pfx = ""
    · simp [createDisplayName, hp, hlen1]
    · simp [createDisplayName, hp, hlen1]
  refine ⟨hd1, hwrap, ?_⟩
  rw [hd1, hd2, hbase]
  constructor
  · intro he
    exact strAppend_left_cancel (strAppend_right_cancel he)
  · intro he
    rw [he]

/-- Witness for claim C2 (amended) at a concrete world: the aliased
candidates `/a/x/p` and `/b/y/p` (both carrying prefix `A`) share the base
name `p`; each un-prefixed name is rendered `p (parent)`, the final name
wraps it as `A/…`, and the un-prefixed names differ exactly as their
parents differ. -/
theorem c2_witness :
    createDisplayName ⟨"/a/x/p", ""⟩ (collectPaths cw9 0).pathsByBaseName
        = goBase "/a/x/p" ++ " (" ++ goBase (goDir "/a/x/p") ++ ")" ∧
      createDisplayName ⟨"/a/x/p", "A"⟩ (collectPaths cw9 0).pathsByBaseName
        = (if ("A" : String) = ""
           then createDisplayName ⟨"/a/x/p", ""⟩ (collectPaths cw9 0).pathsByBaseName
           else "A" ++ "/"
             ++ createDisplayName ⟨"/a/x/p", ""⟩ (collectPaths cw9 0).pathsByBaseName) ∧
      (createDisplayName ⟨"/a/x/p", ""⟩ (collectPaths cw9 0).pathsByBaseName
          = createDisplayName ⟨"/b/y/p", ""⟩ (collectPaths cw9 0).pathsByBaseName ↔
        goBase (goDir "/a/x/p") = goBase (goDir "/b/y/p")) :=
  c2_disambiguation_amended cw9 0 ⟨"/a/x/p", "A"⟩ ⟨"/b/y/p", "A"⟩ (by decide) (by decide)
    (by decide) (by decide)

/-- Claim C3 is refuted: in the world `cw3` the current session is named
`TMUX/foo` while another live session is named `foo`; prefixing `foo` with
the live-session prefix `TMUX/` recreates the current session's name, so
the current session's name does appear as a key. -/
theorem c3_counterexample :
    cw3.currentSession ∈ entryKeys cw3 0 ∧
    buildDirectoryEntries cw3 0 cw3.currentSession = some "foo" := by decide

/-- Claim C3 (amended): the current session's name is never a
directory-derived key; and provided no other live session's prefixed key
spells the current session's name, it is not a key of the result at all. -/
theorem c3_current_session_amended (w : World) (fd : Int)
    (h : ∀ s ∈ w.existingSessions, s ≠ w.currentSession →
      w.cfg.TmuxSessionPfx ++ s ≠ w.currentSession) :
    w.currentSession ∉ entryKeys w fd ∧
      buildDirectoryEntries w fd w.currentSession = none := by
  have hmem : w.currentSession ∉ entryKeys w fd := by
    intro hk
    unfold entryKeys entryInsertions at hk
    rw [List.map_append, List.mem_append] at hk
    rcases hk with hk | hk
    · have hskip := dirKeys_not_skipped w fd _ hk
      simp [shouldSkipEntry] at hskip
    · unfold sessionInsertions at hk
      rw [List.map_map] at hk
      rcases List.mem_map.mp hk with ⟨s, hs, hcontra⟩
      have hmemf := List.mem_filter.mp hs
      exact h s hmemf.1 (by simpa using hmemf.2) hcontra
  exact ⟨hmem, lookupEntries_eq_none hmem⟩

/-- Witness for claim C3 (amended) at a concrete world: the current
session `s1` is a key of neither half of the result. -/
theorem c3_witness :
    cw5.currentSession ∉ entryKeys cw5 0 ∧
      buildDirectoryEntries cw5 0 cw5.currentSession = none :=
  c3_current_session_amended cw5 0 (by decide)

/-- Claim C4 is refuted: in the world `cw4` the path `/x` is in the ignore
set and is submitted as an explicit entry (and is duly dropped from the
candidates), yet a live session named `/x` still puts the string `/x` into
the result as a value. -/
theorem c4_counterexample :
    cw4.cfg.EntryDirs = ["/x"] ∧
    "/x" ∈ ignoreSetOf cw4 ∧
    entryInsertions cw4 0 = [("TMUX//x", "/x")] ∧
    "/x" ∈ (entryInsertions cw4 0).map Prod.snd := by decide

/-- Claim C4 (amended): a path in the ignore set never appears as a
directory-derived value, from however many scan roots or explicit entries
it is reachable; provided additionally that no live session is named
exactly that path, it does not appear as a value of the result at all. -/
theorem c4_ignored_paths_amended (w : World) (fd : Int) (r : String)
    (hr : r ∈ ignoreSetOf w)
    (hs : ∀ s ∈ w.existingSessions, s ≠ r) :
    r ∉ (entryInsertions w fd).map Prod.snd := by
  intro hmem
  unfold entryInsertions at hmem
  rw [List.map_append, List.mem_append] at hmem
  rcases hmem with hmem | hmem
  · unfold dirInsertions at hmem
    rcases List.mem_map.mp hmem with ⟨⟨k, v⟩, hkv, hv⟩
    rcases List.mem_filterMap.mp hkv with ⟨info, hinfo, heq⟩
    dsimp only at heq
    by_cases hskip :
        shouldSkipEntry (createDisplayName info (collectPaths w fd).pathsByBaseName)
          w.currentSession w.existingSessions = true
    · simp [hskip] at heq
    · rw [if_neg hskip] at heq
      rcases Option.some.inj heq with h2
      have hvr : v = r := hv
      have hvp : info.Path = r := by
        have := congrArg Prod.snd h2
        exact this.trans hvr
      exact noneIgnored_collectPaths w fd info hinfo (hvp ▸ hr)
  · unfold sessionInsertions at hmem
    rw [List.map_map] at hmem
    rcases List.mem_map.mp hmem with ⟨s, hsmem, hsr⟩
    exact hs s (List.mem_of_mem_filter hsmem) hsr

/-- Witness for claim C4 (amended) at a concrete world: the ignored path
`/x` is reachable as an explicit entry and is a value of neither half of
the result. -/
theorem c4_witness : "/x" ∉ (entryInsertions cw7 0).map Prod.snd :=
  c4_ignored_paths_amended cw7 0 "/x" (by decide) (by decide)

/-! ### Claim theorems: depth precedence, sorting, admit step, selection -/

/-- Claim C5: the effective scan depth follows the precedence
override > per-source depth > global default (with zero standing for
absent at each level), and an effective depth of zero scans only the
root's immediate content. The depth resolver and the scanner live in
packages not present under src/ and are modelled from the spec. -/
theorem c5_depth_precedence :
    (∀ p a, ScanDir.GetDepth ⟨p, a, 5⟩ 2 3 = 2) ∧
    (∀ p a, ScanDir.GetDepth ⟨p, a, 5⟩ 0 3 = 5) ∧
    (∀ p a (d : Int), ScanDir.GetDepth ⟨p, a, 0⟩ 0 d = d) ∧
    (∀ (base : String) (t : FsTree),
      getSubDirsModel 0 base t = t.children.map (fun c => base ++ "/" ++ c.name)) :=
  ⟨fun _ _ => rfl, fun _ _ => rfl, fun _ _ _ => rfl, fun _ _ => rfl⟩

/-- Claim C6: the name sequence handed to the picker is a permutation of
the input in which every pair in order satisfies: the earlier name carries
the live-session prefix and the later does not, or both are in the same
group and in byte-lexicographic order; and on the concrete input of the
spec the result is as stated. -/
theorem c6_presentation_sort (pfx : String) (l : List String) :
    (sortNames pfx l).Perm l ∧
    (sortNames pfx l).Pairwise (fun a b =>
      (hasPfx a pfx = true ∧ hasPfx b pfx = false) ∨
        (hasPfx a pfx = hasPfx b pfx ∧ lexLe a.toList b.toList = true)) ∧
    sortNames "TMUX/" ["alpha", "TMUX/zeta", "beta", "TMUX/gamma"]
      = ["TMUX/gamma", "TMUX/zeta", "alpha", "beta"] := by
  refine ⟨List.perm_insertionSort _ l, ?_, by decide⟩
  haveI : IsTotal String (fun a b => namesLe pfx a b = true) := ⟨namesLe_total pfx⟩
  haveI : IsTrans String (fun a b => namesLe pfx a b = true) :=
    ⟨fun _ _ _ h1 h2 => namesLe_trans pfx h1 h2⟩
  exact (List.sorted_insertionSort _ l).imp (fun h => namesLe_cases pfx _ _ h)

/-- Claim C9: a path whose resolved base name equals the current session
name is dropped by the admit step before any recording: the candidate
list and the base-name index are left exactly as they were. -/
theorem c9_current_basename_skipped (w : World) (ign : List String) (st : CollectState)
    (p pfx r : String) (h1 : w.resolvePath p = some r)
    (h2 : goBase r = w.currentSession) :
    addPath w ign st p pfx = st := by
  simp [addPath, h1, h2]

/-- Witness for claim C9 at a concrete world: admitting `/z/s1` while the
current session is `s1` leaves the fresh collection state untouched. -/
theorem c9_witness : addPath cw5 [] initState "/z/s1" "" = initState :=
  c9_current_basename_skipped cw5 [] initState "/z/s1" "" "/z/s1" rfl (by decide)

/-- Claim C10: the entry-membership check fires only for interactively
picked names. A choice absent from the table fails when it came from the
picker, but the same choice given as the positional argument succeeds with
the prefix-stripped name and an empty path. -/
theorem c10_membership_check (entries : List (String × String)) (tmuxPfx k picked : String)
    (h : lookupEntries entries k = none) :
    selectSession entries tmuxPfx (some k) picked = Except.ok ⟨cutPfx k tmuxPfx, ""⟩ ∧
    selectSession entries tmuxPfx none k
      = Except.error ("The name must match an existing directory entry: " ++ k) := by
  constructor <;> simp [selectSession, h]

/-! ### Claim theorems: order independence and per-source failure tolerance -/

theorem contains_eq_of_perm {l1 l2 : List String} (h : l1.Perm l2) (x : String) :
    l1.contains x = l2.contains x := by
  by_cases hx : x ∈ l1
  · have c1 : l1.contains x = true := by simpa using hx
    have c2 : l2.contains x = true := by simpa using h.mem_iff.mp hx
    rw [c1, c2]
  · have hx2 : x ∉ l2 := fun hm => hx (h.mem_iff.mpr hm)
    have c1 : l1.contains x = false := by simpa using hx
    have c2 : l2.contains x = false := by simpa using hx2
    rw [c1, c2]

theorem any_eq_of_perm {α : Type} {l1 l2 : List α} (h : l1.Perm l2) (p : α → Bool) :
    l1.any p = l2.any p := by
  cases h1 : l1.any p
  · cases h2 : l2.any p
    · rfl
    · rcases List.any_eq_true.mp h2 with ⟨a, ha, hpa⟩
      have hh : l1.any p = true := List.any_eq_true.mpr ⟨a, h.mem_iff.mpr ha, hpa⟩
      rw [h1] at hh
      cases hh
  · cases h2 : l2.any p
    · rcases List.any_eq_true.mp h1 with ⟨a, ha, hpa⟩
      have hh : l2.any p = true := List.any_eq_true.mpr ⟨a, h.mem_iff.mp ha, hpa⟩
      rw [h2] at hh
      cases hh
    · rfl

theorem shouldSkipEntry_perm {l1 l2 : List String} (h : l1.Perm l2) (dn cur : String) :
    shouldSkipEntry dn cur l1 = shouldSkipEntry dn cur l2 := by
  unfold shouldSkipEntry
  rw [contains_eq_of_perm h]

/-- A `find?` over a mapped list whose matches all have the same canonical
image reduces to a membership test. -/
theorem find?_map_canon {α β : Type} (p : β → Bool) (f : α → β) (b0 : β)
    (hcanon : ∀ a, p (f a) = true → f a = b0) : ∀ l : List α,
    (l.map f).find? p = if l.any (fun a => p (f a)) then some b0 else none := by
  intro l
  induction l with
  | nil => rfl
  | cons x xs ih =>
    rw [List.map_cons, List.any_cons]
    cases hx : p (f x)
    · simp [List.find?_cons, hx, ih]
    · rw [List.find?_cons, hx]
      simp [hcanon x hx]

/-- The live-session half of the table, looked up through the reversed
insertion list: the result depends only on which sessions exist, not on
their order, because a matching pair is determined by the key alone. -/
theorem sessionFind_eq (pfx cur k : String) (l : List String) :
    ((l.filter (fun s => !(s == cur))).map (fun s => (pfx ++ s, s))).reverse.find?
        (fun q => q.1 == k)
      = if (l.filter (fun s => !(s == cur))).any (fun s => pfx ++ s == k)
        then some (k, String.mk (k.toList.drop pfx.toList.length)) else none := by
  have hcanon : ∀ s : String, ((fun q : String × String => q.1 == k) ((fun s => (pfx ++ s, s)) s)) = true →
      (fun s => (pfx ++ s, s)) s = (k, String.mk (k.toList.drop pfx.toList.length)) := by
    intro s hs
    have hk : pfx ++ s = k := by simpa using hs
    have hdata : k.data = pfx.data ++ s.data := by
      rw [← hk]
      exact String.data_append pfx s
    have hs2 : s = String.mk (k.toList.drop pfx.toList.length) := by
      apply String.ext
      show s.data = k.data.drop pfx.data.length
      rw [hdata, List.drop_left]
    dsimp only
    rw [← hs2, hk]
  rw [← List.map_reverse, find?_map_canon _ _ _ hcanon, List.any_reverse]

/-- Claim C7: the entry table is independent of the iteration order of the
live-session set — with the sessions permuted arbitrarily, the resulting
map is pointwise identical and the key sequence is a permutation; hence a
second run over unchanged inputs reproduces exactly the same table. -/
theorem c7_order_independence (w : World) (l2 : List String) (fd : Int)
    (hperm : w.existingSessions.Perm l2) :
    (∀ k, buildDirectoryEntries w fd k
        = buildDirectoryEntries { w with existingSessions := l2 } fd k) ∧
      (entryKeys w fd).Perm (entryKeys { w with existingSessions := l2 } fd) := by
  have hcp : collectPaths { w with existingSessions := l2 } fd = collectPaths w fd := rfl
  have hdirs : dirInsertions w fd = dirInsertions { w with existingSessions := l2 } fd := by
    unfold dirInsertions
    rw [hcp]
    refine List.filterMap_congr (fun info hinfo => ?_)
    dsimp only
    rw [shouldSkipEntry_perm hperm]
  constructor
  · intro k
    unfold buildDirectoryEntries lookupEntries entryInsertions
    rw [List.reverse_append, List.reverse_append, List.find?_append, List.find?_append,
      hdirs]
    unfold sessionInsertions
    dsimp only
    rw [sessionFind_eq, sessionFind_eq,
      any_eq_of_perm (hperm.filter (fun s => !(s == w.currentSession)))]
  · unfold entryKeys entryInsertions
    rw [List.map_append, List.map_append, hdirs]
    refine List.Perm.append_left _ ?_
    unfold sessionInsertions
    dsimp only
    rw [List.map_map, List.map_map]
    exact ((hperm.filter (fun s => !(s == w.currentSession))).map _)

/-- Witness for claim C7 at a concrete world: reversing the live-session
iteration order changes neither the lookup of the contested key nor the
key set. -/
theorem c7_witness :
    buildDirectoryEntries cw3 0 "TMUX/foo"
        = buildDirectoryEntries { cw3 with existingSessions := ["TMUX/foo", "foo"] } 0
            "TMUX/foo" ∧
      (entryKeys cw3 0).Perm
        (entryKeys { cw3 with existingSessions := ["TMUX/foo", "foo"] } 0) :=
  ⟨(c7_order_independence cw3 ["TMUX/foo", "foo"] 0 (by decide)).1 "TMUX/foo",
   (c7_order_independence cw3 ["TMUX/foo", "foo"] 0 (by decide)).2⟩

/-- Claim C8: a scan source whose root fails to resolve contributes
nothing and harms nothing — the full insertion sequence with the failing
source configured equals the one without it, and with only the failing
source configured the candidate list is exactly the one produced by no
scan source at all. The engine has no error path here: the Go `addPath`
closure always returns nil, so `buildDirectoryEntries` cannot fail. -/
theorem c8_bad_root_skipped (w : World) (fd : Int) (pre post : List ScanDir)
    (bad : ScanDir) (hbad : w.resolvePath bad.Path = none) :
    entryInsertions { w with cfg := { w.cfg with ScanDirs := pre ++ bad :: post } } fd
        = entryInsertions { w with cfg := { w.cfg with ScanDirs := pre ++ post } } fd ∧
      (collectPaths { w with cfg := { w.cfg with ScanDirs := [bad] } } fd).allPaths
        = (collectPaths { w with cfg := { w.cfg with ScanDirs := [] } } fd).allPaths := by
  have hcoll : ∀ sds : List ScanDir,
      collectPaths { w with cfg := { w.cfg with ScanDirs := sds } } fd
        = w.cfg.EntryDirs.foldl (fun s e => addPath w (ignoreSetOf w) s e "")
            (sds.foldl (fun s sd => processScanDir w sd fd sd.Alias (ignoreSetOf w) s)
              initState) := fun _ => rfl
  have hstep : ∀ st : CollectState,
      processScanDir w bad fd bad.Alias (ignoreSetOf w) st = st := by
    intro st
    unfold processScanDir
    rw [hbad]
  have hfold : (pre ++ bad :: post).foldl
      (fun s sd => processScanDir w sd fd sd.Alias (ignoreSetOf w) s) initState
    = (pre ++ post).foldl
      (fun s sd => processScanDir w sd fd sd.Alias (ignoreSetOf w) s) initState := by
    rw [List.foldl_append, List.foldl_append, List.foldl_cons, hstep]
  constructor
  · have hc2 : collectPaths { w with cfg := { w.cfg with ScanDirs := pre ++ bad :: post } } fd
        = collectPaths { w with cfg := { w.cfg with ScanDirs := pre ++ post } } fd := by
      rw [hcoll, hcoll, hfold]
    unfold entryInsertions dirInsertions sessionInsertions
    rw [hc2]
  · rw [hcoll, hcoll, List.foldl_cons, hstep, List.foldl_nil]

/-- Witness for claim C8 at a concrete world: configuring the unresolvable
root `/dead` between no other sources and one good source changes nothing,
and alone it contributes no candidate. -/
theorem c8_witness :
    entryInsertions
        { cw8 with cfg := { cw8.cfg with
            ScanDirs := [ScanDir.mk "/root1" "" 0] ++ badScanDir :: [] } } 0
        = entryInsertions
            { cw8 with cfg := { cw8.cfg with
                ScanDirs := [ScanDir.mk "/root1" "" 0] ++ [] } } 0 ∧
      (collectPaths { cw8 with cfg := { cw8.cfg with ScanDirs := [badScanDir] } } 0).allPaths
        = (collectPaths { cw8 with cfg := { cw8.cfg with ScanDirs := [] } } 0).allPaths :=
  c8_bad_root_skipped cw8 0 [ScanDir.mk "/root1" "" 0] [] badScanDir (by decide)

/-- Witness for claim C10 at a concrete table: the name `zzz` misses the
single entry, errors when picked, and launches with an empty path when
passed as the argument. -/
theorem c10_witness :
    selectSession [("a", "/p")] "TMUX/" (some "zzz") "x" = Except.ok ⟨"zzz", ""⟩ ∧
    selectSession [("a", "/p")] "TMUX/" none "zzz"
      = Except.error ("The name must match an existing directory entry: " ++ "zzz") :=
  c10_membership_check [("a", "/p")] "TMUX/" "zzz" "x" (by decide)

end Tms
